import Mathlib

/-!
Shallow embedding of the core of the obsidian2notion repository
(src/markdown_parser.py, src/sync_service.py, src/notion_adapter.py),
together with theorems settling the frozen claims about its
natural-language specification.

Python strings are modelled as `List Char` (a Python `str` is a sequence
of Unicode code points, as is a `List Char`).  External library calls
(hashlib.md5, yaml.safe_load, datetime/isoformat, the Notion client) are
modelled as explicit parameters, so every claim is settled for all
possible behaviours of those collaborators.
-/

namespace O2N

/-- Python `str.isspace` / regex `\s`, restricted to the ASCII whitespace
characters (space, tab, newline, carriage return, vertical tab, form feed).
The further Unicode whitespace code points accepted by Python are not
exercised by any claim. -/
def isPySpace (c : Char) : Bool :=
  c = ' ' || c = '\t' || c = '\n' || c = '\r' || c = Char.ofNat 11 || c = Char.ofNat 12

/-- Remove the maximal all-whitespace suffix (the right half of Python
`str.strip()`). -/
def dropTrailingWs : List Char → List Char
  | [] => []
  | c :: cs =>
    match dropTrailingWs cs with
    | [] => if isPySpace c then [] else [c]
    | r => c :: r

/-- Python `str.strip()` with no arguments: remove leading and trailing
whitespace. -/
def pyStrip (cs : List Char) : List Char :=
  dropTrailingWs (cs.dropWhile isPySpace)

/-- Python `str.split('\n')`: split on every newline; the empty string
yields one empty field. -/
def splitNl : List Char → List (List Char)
  | [] => [[]]
  | '\n' :: rest => [] :: splitNl rest
  | c :: rest =>
    match splitNl rest with
    | [] => [[c]]
    | h :: t => (c :: h) :: t

/-- Python `'\n'.join(lines)`. -/
def joinNl (ls : List (List Char)) : List Char :=
  List.intercalate ['\n'] ls

/-- First whitespace-delimited token of a string: `s.split()[0]` for a
string that contains at least one non-whitespace character (the call site
in `create_code_block` never passes an all-whitespace string; we return
`[]` there, where Python would raise IndexError). -/
def firstToken (cs : List Char) : List Char :=
  (cs.dropWhile isPySpace).takeWhile (fun c => !(isPySpace c))

/-!
Scanners for the regular expressions of markdown_parser.py.
None of the image/wikilink patterns uses DOTALL, so their `.` never
crosses a newline: every scanner below aborts the current match attempt
at a `'\n'`.
-/

/-- Scan for the first `"]]"` (the non-greedy `(.*?)\]\]` tail used by the
patterns `!\[\[(.*?)\]\]` and `\[\[...\]\]`): returns the characters before
the first `"]]"` and the characters after it. -/
def upToDoubleBrk : List Char → Option (List Char × List Char)
  | [] => none
  | c :: rest =>
    if c = ']' ∧ rest.head? = some ']' then some ([], rest.tail)
    else if c = '\n' then none
    else (upToDoubleBrk rest).map (fun p => (c :: p.1, p.2))

/-- Scan for the first `"]("` (the non-greedy `(.*?)\]\(` of the pattern
`!\[(.*?)\]\((.*?)\)`). -/
def upToBrkParen : List Char → Option (List Char × List Char)
  | [] => none
  | c :: rest =>
    if c = ']' ∧ rest.head? = some '(' then some ([], rest.tail)
    else if c = '\n' then none
    else (upToBrkParen rest).map (fun p => (c :: p.1, p.2))

/-- Scan for the first `')'` (the non-greedy `(.*?)\)` of the same
pattern). -/
def upToParen : List Char → Option (List Char × List Char)
  | [] => none
  | c :: rest =>
    if c = ')' then some ([], rest)
    else if c = '\n' then none
    else (upToParen rest).map (fun p => (c :: p.1, p.2))

theorem upToDoubleBrk_length {cs g r : List Char}
    (h : upToDoubleBrk cs = some (g, r)) : r.length < cs.length := by
  induction cs generalizing g r with
  | nil => simp [upToDoubleBrk] at h
  | cons c rest ih =>
    rw [upToDoubleBrk] at h
    split at h
    · simp at h
      rw [← h.2]
      simp [List.length_tail]
      omega
    · split at h
      · simp at h
      · cases hin : upToDoubleBrk rest with
        | none => rw [hin] at h; simp at h
        | some p =>
          rw [hin] at h
          simp at h
          have := ih (g := p.1) (r := p.2) (by simp [hin])
          rw [← h.2]
          simp
          omega

/-- Variant of `upToDoubleBrk_length` stated on the pair. -/
theorem upToDoubleBrkLen {cs : List Char} {p : List Char × List Char}
    (h : upToDoubleBrk cs = some p) : p.2.length < cs.length := by
  cases p; exact upToDoubleBrk_length h

theorem upToBrkParen_length {cs g r : List Char}
    (h : upToBrkParen cs = some (g, r)) : r.length < cs.length := by
  induction cs generalizing g r with
  | nil => simp [upToBrkParen] at h
  | cons c rest ih =>
    rw [upToBrkParen] at h
    split at h
    · simp at h
      rw [← h.2]
      simp [List.length_tail]
      omega
    · split at h
      · simp at h
      · cases hin : upToBrkParen rest with
        | none => rw [hin] at h; simp at h
        | some p =>
          rw [hin] at h
          simp at h
          have := ih (g := p.1) (r := p.2) (by simp [hin])
          rw [← h.2]
          simp
          omega

/-- Match of the pattern `!\[\[(.*?)\]\]` anchored at the start of the
string (group 1). -/
def obsImageMatchAt (cs : List Char) : Option (List Char) :=
  if cs.take 3 = "![[".data then (upToDoubleBrk (cs.drop 3)).map (fun p => p.1)
  else none

/-- Match of the pattern `!\[(.*?)\]\((.*?)\)` anchored at the start of
the string: `(alt, url)` = groups 1 and 2.  The non-greedy groups take the
first `"]("` and then the first `')'`; if either is missing before the end
of the line the whole attempt at this position fails (regex backtracking
to a later `"]("` cannot succeed either, since any later `')'` would
already have closed the first one). -/
def mdImageMatchAt (cs : List Char) : Option (List Char × List Char) :=
  if cs.take 2 = "![".data then
    match upToBrkParen (cs.drop 2) with
    | none => none
    | some (alt, r1) =>
      match upToParen r1 with
      | none => none
      | some (url, _) => some (alt, url)
  else none

/-- Python `re.search` of `!\[(.*?)\]\((.*?)\)`: try every start position
from the left. -/
def mdImageSearch : List Char → Option (List Char × List Char)
  | [] => none
  | c :: rest =>
    match mdImageMatchAt (c :: rest) with
    | some p => some p
    | none => mdImageSearch rest

/-- Match, anchored at the current position, of the wikilink pattern
`\[\[(.*?)(?:\|(.*?))?\]\]` after the leading `"[["` has been consumed:
grow group 1 one character at a time (non-greedy); at each position first
try the alias alternative (a `'|'` followed by group 2 up to the first
`"]]"`), then the no-alias close `"]]"`.  Returns (group1, optional
group2, remainder after the match). -/
def wikiInner : List Char → Option (List Char × Option (List Char) × List Char)
  | [] => none
  | c :: rest =>
    if c = '|' then (upToDoubleBrk rest).map (fun p => ([], some p.1, p.2))
    else if c = ']' ∧ rest.head? = some ']' then some ([], none, rest.tail)
    else if c = '\n' then none
    else (wikiInner rest).map (fun t => (c :: t.1, t.2.1, t.2.2))

theorem wikiInner_length {cs : List Char} {t : List Char × Option (List Char) × List Char}
    (h : wikiInner cs = some t) : t.2.2.length < cs.length := by
  induction cs generalizing t with
  | nil => simp [wikiInner] at h
  | cons c rest ih =>
    rw [wikiInner] at h
    split at h
    · cases hin : upToDoubleBrk rest with
      | none => rw [hin] at h; simp at h
      | some p =>
        rw [hin] at h
        simp at h
        have := upToDoubleBrkLen hin
        rw [← h]
        simp
        omega
    · split at h
      · simp at h
        rw [← h]
        simp [List.length_tail]
        omega
      · split at h
        · simp at h
        · cases hin : wikiInner rest with
          | none => rw [hin] at h; simp at h
          | some t2 =>
            rw [hin] at h
            simp at h
            have := ih (t := t2) (by simp [hin])
            rw [← h]
            simp
            omega

/-- Variant of `wikiInner_length` convenient inside termination proofs. -/
theorem wikiInnerLen {cs : List Char} {t : List Char × Option (List Char) × List Char}
    (h : wikiInner cs = some t) : t.2.2.length < cs.length :=
  wikiInner_length h

/-- Fueled scanner for `obsSub` (structural recursion on the fuel, so that
proofs can evaluate it by kernel reduction).  Every recursive call is on a
strictly shorter string (`upToDoubleBrkLen`), so fuel = length never runs
out. -/
def obsSubF : Nat → List Char → List Char
  | _, [] => []
  | 0, cs => cs
  | fuel + 1, c :: rest =>
    if (c :: rest).take 3 = "![[".data then
      match upToDoubleBrk ((c :: rest).drop 3) with
      | some p => "[Image: ".data ++ p.1 ++ [']'] ++ obsSubF fuel p.2
      | none => c :: obsSubF fuel rest
    else c :: obsSubF fuel rest

/-- Python `self.obsidian_image_pattern.sub(r'[Image: \1]', text)`:
replace every (leftmost, non-overlapping) occurrence of `!\[\[(.*?)\]\]`
by `[Image: <group1>]`; on a failed attempt the scan advances one
character, exactly as `re.sub` does. -/
def obsSub (cs : List Char) : List Char := obsSubF cs.length cs

/-- The replacement function of `self.wikilink_pattern.sub`: a wikilink
`[[page]]` becomes `page`, `[[page|alias]]` becomes `alias` — except that
a present-but-empty alias is falsy in Python, so `[[page|]]` becomes
`page`. -/
def wikiReplacement (g1 : List Char) (g2 : Option (List Char)) : List Char :=
  match g2 with
  | some al => if al = [] then g1 else al
  | none => g1

/-- Fueled scanner for `wikiSub` (structural recursion on the fuel; every
recursive call is on a strictly shorter string by `wikiInnerLen`, so fuel
= length never runs out). -/
def wikiSubF : Nat → List Char → List Char
  | _, [] => []
  | 0, cs => cs
  | fuel + 1, c :: rest =>
    if (c :: rest).take 2 = "[[".data then
      match wikiInner ((c :: rest).drop 2) with
      | some t => wikiReplacement t.1 t.2.1 ++ wikiSubF fuel t.2.2
      | none => c :: wikiSubF fuel rest
    else c :: wikiSubF fuel rest

/-- Python `self.wikilink_pattern.sub(replace_wikilink, text)`. -/
def wikiSub (cs : List Char) : List Char := wikiSubF cs.length cs

/-!
Notion content blocks (markdown_parser.py `_create_*_block`).  A rich-text
list `[{"text": {"content": t}}, ...]` is modelled by the list of its
content strings.
-/

/-- The Notion block variants produced by MarkdownParser. -/
inductive Block where
  | paragraph (rich : List (List Char))
  | heading (level : Nat) (rich : List (List Char))
  | bulleted_list_item (rich : List (List Char))
  | numbered_list_item (rich : List (List Char))
  | quote (rich : List (List Char))
  | to_do (rich : List (List Char)) (checked : Bool)
  | code (rich : List (List Char)) (language : List Char)
  | image (url : List Char)
deriving DecidableEq, Repr

/-- The text contents carried by a block (the `content` fields of its
rich-text list, or of a code block's rich text); an image block carries
only a URL. -/
def blockTexts : Block → List (List Char)
  | .paragraph r => r
  | .heading _ r => r
  | .bulleted_list_item r => r
  | .numbered_list_item r => r
  | .quote r => r
  | .to_do r _ => r
  | .code r _ => r
  | .image _ => []

/-- MarkdownParser._create_rich_text: replace obsidian image embeds by
`[Image: name]`, replace wikilinks by their target or alias, then
truncate text longer than 2000 characters to its first 1997 characters
plus `"..."`. -/
def create_rich_text (text : List Char) : List (List Char) :=
  let t1 := obsSub text
  let t2 := wikiSub t1
  let t3 := if 2000 < t2.length then t2.take 1997 ++ "...".data else t2
  [t3]

/-- MarkdownParser._is_image_line: `re.match` of the markdown-image or the
obsidian-embed pattern against the stripped line.  `re.match` anchors only
at the start, so trailing text after the image syntax does not prevent a
match. -/
def is_image_line (line : List Char) : Bool :=
  (mdImageMatchAt (pyStrip line)).isSome || (obsImageMatchAt (pyStrip line)).isSome

/-- MarkdownParser._create_image_block: `re.search` the markdown image
pattern in the raw line; only a URL that starts with `"http"` yields an
image block, anything else yields `None` (the caller then falls back to a
paragraph). -/
def create_image_block (line : List Char) : Option Block :=
  match mdImageSearch line with
  | some p => if p.2.take 4 = "http".data then some (Block.image p.2) else none
  | none => none

/-- MarkdownParser._create_paragraph_block. -/
def mkParagraph (text : List Char) : Block := .paragraph (create_rich_text text)

/-- MarkdownParser._create_heading_block. -/
def mkHeading (text : List Char) (level : Nat) : Block := .heading level (create_rich_text text)

/-- MarkdownParser._create_bulleted_list_item. -/
def mkBulleted (text : List Char) : Block := .bulleted_list_item (create_rich_text text)

/-- MarkdownParser._create_numbered_list_item. -/
def mkNumbered (text : List Char) : Block := .numbered_list_item (create_rich_text text)

/-- MarkdownParser._create_todo_block. -/
def mkTodo (text : List Char) (checked : Bool) : Block := .to_do (create_rich_text text) checked

/-- MarkdownParser._create_quote_block. -/
def mkQuote (text : List Char) : Block := .quote (create_rich_text text)

/-- MarkdownParser._create_code_block: default an empty language tag to
"plain text", truncate code longer than 2000 characters to 1997 plus
`"..."`; the stored language is the first whitespace-delimited token of
the (defaulted) tag. -/
def create_code_block (code : List Char) (language : List Char) : Block :=
  let language2 := if language = [] then "plain text".data else language
  let code2 := if 2000 < code.length then code.take 1997 ++ "...".data else code
  Block.code [code2] (if language2 = [] then "plain text".data else firstToken language2)

/-- Matcher for `re.match(r'^\d+\.\s', line.strip())` together with the
prefix removal `re.sub(r'^\d+\.\s', '', ...)`: a nonempty run of digits,
a dot and one whitespace character; returns the remainder.  (Python `\d`
also accepts non-ASCII decimal digits; those are not exercised by any
claim.) -/
def numberedMatch (s : List Char) : Option (List Char) :=
  let ds := s.takeWhile Char.isDigit
  if ds = [] then none
  else
    match s.drop ds.length with
    | '.' :: w :: rest => if isPySpace w then some rest else none
    | _ => none

/-- One step of the Scanning state of MarkdownParser._parse_body_to_blocks:
the branch cascade applied to a single non-blank, non-fence line.  The
heading tests use the raw line; list/todo/numbered/quote tests use the
stripped line; the paragraph fallback carries the raw line. -/
def classifyLine (line : List Char) : Block :=
  let s := pyStrip line
  if line.take 2 = "# ".data then mkHeading (line.drop 2) 1
  else if line.take 3 = "## ".data then mkHeading (line.drop 3) 2
  else if line.take 4 = "### ".data then mkHeading (line.drop 4) 3
  else if s.take 2 = "- ".data ∨ s.take 2 = "* ".data then
    let content := s.drop 2
    if content.take 4 = "[ ] ".data then mkTodo (content.drop 4) false
    else if content.take 4 = "[x] ".data then mkTodo (content.drop 4) true
    else mkBulleted content
  else
    match numberedMatch s with
    | some content => mkNumbered content
    | none =>
      if s.take 2 = "> ".data then mkQuote (s.drop 2)
      else if is_image_line line then
        match create_image_block line with
        | some b => b
        | none => mkParagraph line
      else mkParagraph line

theorem dropWhileLenLe {α : Type} (p : α → Bool) : ∀ l : List α, (l.dropWhile p).length ≤ l.length := by
  intro l
  induction l with
  | nil => simp [List.dropWhile]
  | cons a t ih =>
    rw [List.dropWhile]
    split
    · exact Nat.le_succ_of_le ih
    · simp

/-- MarkdownParser._parse_body_to_blocks, on the list of lines obtained by
splitting the body at newlines: blank lines are skipped; a line whose
stripped form starts with three backticks opens a code block that consumes
lines up to (and including) the next fence line; every other line yields
exactly one block via `classifyLine`. -/
def parseLinesF : Nat → List (List Char) → List Block
  | _, [] => []
  | 0, _ => []
  | fuel + 1, line :: rest =>
    let s := pyStrip line
    if s = [] then parseLinesF fuel rest
    else if s.take 3 = "```".data then
      let language := pyStrip (s.drop 3)
      let code_content := rest.takeWhile (fun l => !((pyStrip l).take 3 = "```".data : Bool))
      let rest2 := (rest.dropWhile (fun l => !((pyStrip l).take 3 = "```".data : Bool))).drop 1
      create_code_block (joinNl code_content) language :: parseLinesF fuel rest2
    else classifyLine line :: parseLinesF fuel rest

/-- The scanning loop of MarkdownParser._parse_body_to_blocks, defined via
`parseLinesF` with fuel = number of lines: each step consumes at least one
line and at most all of them, so the fuel is never exhausted (the fenced
branch drops the `code_content` lines and the closing fence as well, only
shortening the rest). -/
def parseLines (lines : List (List Char)) : List Block :=
  parseLinesF lines.length lines

/-- MarkdownParser._parse_body_to_blocks. -/
def parse_body_to_blocks (body : List Char) : List Block :=
  parseLines (splitNl body)

/-!
The frontmatter delimiter pattern `^---\s*\n(.*?)\n---\s*\n` (DOTALL),
matched with Python backtracking semantics: the greedy `\s*\n` pieces try
the latest contained newline first, the non-greedy `(.*?)` grows from the
shortest group.
-/

/-- All ways the greedy `\s*\n` can match a leading piece of the string:
for every newline inside the maximal whitespace run at the front, the
suffix just after it — latest newline (greedy choice) first. -/
def greedyWsNlAux : List Char → List (List Char) → List (List Char)
  | [], acc => acc
  | c :: rest, acc =>
    if c = '\n' then greedyWsNlAux rest (rest :: acc)
    else if isPySpace c then greedyWsNlAux rest acc
    else acc

/-- Candidates for the remainder after a leading `\s*\n`, greediest
first. -/
def greedyWsNl (cs : List Char) : List (List Char) :=
  greedyWsNlAux cs []

/-- Scan (DOTALL, so across newlines) for the first position where
`\n---\s*\n` completes the frontmatter pattern; `acc` accumulates the
reversed group-1 text.  On success returns `(group1, text after the whole
match)`.  When `\n---` is found but no `\s*\n` follows, the non-greedy
group grows by one character, exactly as regex backtracking does. -/
def fmClose : List Char → List Char → Option (List Char × List Char)
  | acc, '\n' :: rest =>
    if rest.take 3 = "---".data then
      match greedyWsNl (rest.drop 3) with
      | body :: _ => some (acc.reverse, body)
      | [] => fmClose ('\n' :: acc) rest
    else fmClose ('\n' :: acc) rest
  | acc, c :: rest => fmClose (c :: acc) rest
  | _, [] => none

/-- Try each opening `\s*\n` candidate (greediest first) until the closing
scan succeeds — the regex backtracks to an earlier opening newline when no
close can be found for the greedier choice. -/
def fmFirstClose : List (List Char) → Option (List Char × List Char)
  | [] => none
  | s :: rest =>
    match fmClose [] s with
    | some p => some p
    | none => fmFirstClose rest

/-- `self.frontmatter_pattern.match(content)` for
`^---\s*\n(.*?)\n---\s*\n` with DOTALL: on success returns
`(group1, content[match.end():])`. -/
def matchFrontmatter (content : List Char) : Option (List Char × List Char) :=
  if content.take 3 = "---".data then fmFirstClose (greedyWsNl (content.drop 3))
  else none

/-!
Frontmatter values.  `yaml.safe_load` is external; its result is modelled
by the inductive `FmValue` (Python scalars, date objects and lists) and a
parse function is passed in as a parameter wherever the code calls yaml.
-/

/-- A YAML frontmatter value as Python data: a string, an int, a bool,
None, a date/datetime object (represented by the string `str()` yields for
it), or a list. -/
inductive FmValue where
  | vStr (s : List Char)
  | vInt (n : Int)
  | vBool (b : Bool)
  | vNull
  | vDate (iso : List Char)
  | vList (elems : List FmValue)
deriving Repr

/-- A parsed frontmatter mapping (a Python dict: keys unique, modelled as
an association list, first binding wins). -/
def Fm := List (List Char × FmValue)

/-- `dict.get(key)`: `None` when absent. -/
def fmGet (fm : Fm) (k : List Char) : Option FmValue :=
  (List.find? (fun p => p.1 == k) fm).map (fun p => p.2)

/-- Python truthiness of a frontmatter value. -/
def pyTruthy : FmValue → Bool
  | .vStr s => !s.isEmpty
  | .vInt n => decide (n ≠ 0)
  | .vBool b => b
  | .vNull => false
  | .vDate _ => true
  | .vList l => !l.isEmpty

def joinCommaSep (ls : List (List Char)) : List Char :=
  List.intercalate ", ".data ls

/-- Python `repr`, used by `str` on a list's elements.  For strings the
quote-escaping corner cases of CPython (a quote inside the string) are not
modelled — no claim exercises `str()` of a list value, it can only occur
for a frontmatter `date:` holding a YAML list.  `repr` of a date object
(`datetime.date(...)`) is likewise approximated by its ISO string. -/
def pyRepr : FmValue → List Char
  | .vStr s => '\'' :: s ++ ['\'']
  | .vInt n => (toString n).data
  | .vBool b => if b then "True".data else "False".data
  | .vNull => "None".data
  | .vDate s => s
  | .vList l => '[' :: joinCommaSep (l.attach.map (fun x => pyRepr x.1)) ++ [']']
termination_by v => sizeOf v
decreasing_by
  have hm := List.sizeOf_lt_of_mem x.2
  simp only [FmValue.vList.sizeOf_spec]
  omega

/-- Python `str()` of a frontmatter value. -/
def pyStr : FmValue → List Char
  | .vStr s => s
  | .vInt n => (toString n).data
  | .vBool b => if b then "True".data else "False".data
  | .vNull => "None".data
  | .vDate s => s
  | .vList l => pyRepr (.vList l)

/-- Python `a or b` over `dict.get` results (`None` when the key is
absent): the first operand wins iff it is truthy. -/
def pyOr (a b : Option FmValue) : Option FmValue :=
  match a with
  | some v => if pyTruthy v then some v else b
  | none => b

/-- Python `s.split(',')` (keeps empty fields). -/
def splitOnComma : List Char → List (List Char)
  | [] => [[]]
  | ',' :: rest => [] :: splitOnComma rest
  | c :: rest =>
    match splitOnComma rest with
    | [] => [[c]]
    | h :: t => (c :: h) :: t

/-- Python `s.split()` with no arguments: maximal non-whitespace runs. -/
def pyWsSplit (cs : List Char) : List (List Char) :=
  (pyWsSplitAux cs).filter (fun l => !l.isEmpty)
where
  pyWsSplitAux : List Char → List (List Char)
    | [] => [[]]
    | c :: rest =>
      if isPySpace c then [] :: pyWsSplitAux rest
      else
        match pyWsSplitAux rest with
        | [] => [[c]]
        | h :: t => (c :: h) :: t

/-- The Notion page properties built by MarkdownParser._build_properties:
`Name` (title text content), optionally `Tags` (the multi-select names)
and `Date` (the `date.start` string). -/
structure Props where
  name : List Char
  tags : Option (List (List Char))
  date : Option (List Char)
deriving DecidableEq, Repr

/-- MarkdownParser._build_properties.  `iso` models
`datetime.fromtimestamp(mtime).isoformat()` (external library call).
Note the `or`-chains use Python truthiness, and the
`isinstance(date_val, (datetime, object))` test is always true (every
Python value is an `object`), so the date value is always stringified. -/
def build_properties (iso : Int → List Char) (title : List Char) (fm : Fm) (mtime : Int) :
    Props :=
  let tagsVal := pyOr (fmGet fm "tags".data) (fmGet fm "tag".data)
  let tags : Option (List (List Char)) :=
    match tagsVal with
    | some v =>
      if pyTruthy v then
        match v with
        | .vStr s =>
          some (if s.contains ',' then (splitOnComma s).map pyStrip else pyWsSplit s)
        | .vList l => some (l.map pyStr)
        | _ => none
      else none
    | none => none
  let dateVal0 := pyOr (fmGet fm "date".data) (fmGet fm "created".data)
  let dateVal : FmValue :=
    match dateVal0 with
    | some v => if pyTruthy v then v else .vStr (iso mtime)
    | none => .vStr (iso mtime)
  let date : Option (List Char) :=
    if pyTruthy dateVal then some (pyStr dateVal) else none
  { name := title, tags := tags, date := date }

/-- MarkdownParser._extract_frontmatter.  `parseY` models
`yaml.safe_load`: it may return a mapping, return `None` (empty document)
or raise a `YAMLError` (the `.error` case).  On a parse error a warning is
logged and the ENTIRE original content is returned as the body (the
prologue is not stripped); when no delimited block is present the content
is returned unchanged. -/
def extract_frontmatter (parseY : List Char → Except Unit (Option Fm))
    (content : List Char) : Fm × List Char :=
  match matchFrontmatter content with
  | some (y, body) =>
    match parseY y with
    | .ok (some fm) => (fm, body)
    | .ok none => ([], body)
    | .error _ => ([], content)
  | none => ([], content)

/-- A markdown document as the sync engine sees it: relative path, filename
stem, raw content and modification time (st_mtime, modelled at integer
precision; the fractional part plays no role in any claim). -/
structure MdFile where
  path : List Char
  stem : List Char
  content : List Char
  mtime : Int
deriving DecidableEq, Repr

/-- MarkdownParser.parse_file on an in-memory document (the read itself is
I/O; an unreadable file never reaches the pure pipeline). -/
def parse_file (parseY : List Char → Except Unit (Option Fm)) (iso : Int → List Char)
    (f : MdFile) : Props × List Block :=
  let fb := extract_frontmatter parseY f.content
  (build_properties iso f.stem fb.1 f.mtime, parse_body_to_blocks fb.2)

/-!
Sync engine (src/sync_service.py together with the NotionAdapter surface
it consumes, src/notion_adapter.py).  The Notion client is external: it is
modelled as arbitrary functions.  `find_page_by_title` returns the id of
the found page or `None`; `create_page` returns the created page (its id)
or `None` on APIResponseError; `update_page` returns a success flag
(page properties are updated first, then the children are replaced
wholesale; any APIResponseError inside makes it return False).
-/

/-- The remote store operations SyncService calls on the NotionAdapter. -/
structure Remote where
  findR : List Char → List Char → Option (List Char)
  createR : List Char → Props → List Block → Option (List Char)
  updateR : List Char → Props → List Block → Bool

/-- One remote call issued during a cycle, with its arguments. -/
inductive RemoteCall where
  | find (databaseId : List Char) (title : List Char)
  | create (databaseId : List Char) (properties : Props) (children : List Block)
  | update (pageId : List Char) (properties : Props) (children : List Block)
deriving DecidableEq, Repr

/-- The per-file record SyncService keeps in sync_state.json:
`{"mtime": ..., "hash": ..., "page_id": ...}`. -/
structure FileRec where
  mtime : Int
  hash : List Char
  page_id : List Char
deriving DecidableEq, Repr

/-- The sync state: a dict keyed by relative path. -/
def SyncState := List Char → Option FileRec

/-- Dict update `state[path] = rec`. -/
def upsert (st : SyncState) (k : List Char) (v : FileRec) : SyncState :=
  fun q => if q = k then some v else st q

/-- Everything SyncService depends on besides the state: the Notion
adapter, the database id from the config, and the external library
functions (md5 hex digest, yaml parse, mtime-to-ISO conversion). -/
structure Env where
  remote : Remote
  db : List Char
  parseY : List Char → Except Unit (Option Fm)
  iso : Int → List Char

/-- Python truthiness of the `page_id` variable in _sync_file (`None` or a
string). -/
def optTruthy : Option (List Char) → Bool
  | some s => !s.isEmpty
  | none => false

/-- The identity-resolution block of SyncService._sync_file (lines
106-116): when the local state has no truthy page_id and the title is
non-empty, query Notion by title and adopt the id of an existing page;
returns the resolved page id and the find call issued, if any. -/
def resolve_page_id (remote : Remote) (db : List Char) (pid0 : Option (List Char))
    (title : List Char) : Option (List Char) × List RemoteCall :=
  if !optTruthy pid0 then
    if title ≠ [] then
      match remote.findR db title with
      | some pageId => (some pageId, [RemoteCall.find db title])
      | none => (pid0, [RemoteCall.find db title])
    else (pid0, [])
  else (pid0, [])

/-- SyncService._sync_file for one document (`h` is the md5 content hash
of _calculate_file_hash): skip when the stored hash equals the current
hash; otherwise parse, resolve the page identity (stored page_id, else a
title query when the title is non-empty), then update or create; on
success upsert `{mtime, hash, page_id}` for the path.  Returns the new
state and the remote calls issued.  (The `if not properties` guard of the
source only fires when the file read failed, which cannot happen for an
in-memory document: `build_properties` always populates `Name`.) -/
def sync_file (h : List Char → List Char) (env : Env) (st : SyncState) (f : MdFile) :
    SyncState × List RemoteCall :=
  let current_hash := h f.content
  let file_state := st f.path
  if file_state.map FileRec.hash = some current_hash then (st, [])
  else
    let pb := parse_file env.parseY env.iso f
    let properties := pb.1
    let blocks := pb.2
    let pid0 : Option (List Char) := file_state.map FileRec.page_id
    let title := properties.name
    let found := resolve_page_id env.remote env.db pid0 title
    let pid1 := found.1
    if hp : optTruthy pid1 then
      let p := pid1.getD []
      let success := env.remote.updateR p properties blocks
      let calls := found.2 ++ [RemoteCall.update p properties blocks]
      if success then (upsert st f.path ⟨f.mtime, current_hash, p⟩, calls)
      else (st, calls)
    else
      let calls := found.2 ++ [RemoteCall.create env.db properties blocks]
      match env.remote.createR env.db properties blocks with
      | some rid =>
        if rid ≠ [] then (upsert st f.path ⟨f.mtime, current_hash, rid⟩, calls)
        else (st, calls)
      | none => (st, calls)

/-- SyncService.sync: the per-cycle loop over the discovered documents (in
rglob order), threading the state and collecting every remote call.
Loading and saving sync_state.json is I/O around this pure core. -/
def sync_run (h : List Char → List Char) (env : Env) :
    List MdFile → SyncState → SyncState × List RemoteCall
  | [], st => (st, [])
  | f :: rest, st =>
    let r := sync_file h env st f
    let r2 := sync_run h env rest r.1
    (r2.1, r.2 ++ r2.2)

/-- A remote whose mutating calls all succeed: every update returns True
and every create returns a page with a non-empty id. -/
def RemoteOk (r : Remote) : Prop :=
  (∀ p pr b, r.updateR p pr b = true) ∧
  (∀ d pr b, ∃ i, r.createR d pr b = some i ∧ i ≠ [])

/-!
Concrete instances used by witnesses and counterexamples.
-/

/-- A remote whose mutating calls all succeed (find finds nothing). -/
def remoteOk0 : Remote :=
  { findR := fun _ _ => none
    createR := fun _ _ _ => some "pid1".data
    updateR := fun _ _ _ => true }

/-- A remote on which every create and update fails. -/
def remoteFail0 : Remote :=
  { findR := fun _ _ => none
    createR := fun _ _ _ => none
    updateR := fun _ _ _ => false }

/-- An environment with the always-succeeding remote. -/
def env0 : Env :=
  { remote := remoteOk0
    db := "db".data
    parseY := fun _ => .ok none
    iso := fun _ => "1970-01-01T00:00:00".data }

/-- An environment with the always-failing remote. -/
def envFail0 : Env := { env0 with remote := remoteFail0 }

/-- A concrete stand-in for the md5 hex digest in witnesses. -/
def hash0 : List Char → List Char := fun c => c

/-- The empty sync state. -/
def stEmpty : SyncState := fun _ => none

def fileA : MdFile :=
  { path := "a.md".data, stem := "a".data, content := "hello".data, mtime := 100 }

def fileB : MdFile :=
  { path := "a.md".data, stem := "a".data, content := "hello".data, mtime := 200 }

/-- C5: if the content starts with a frontmatter delimiter block that the
YAML parser rejects, extraction returns empty frontmatter together with
the ENTIRE original content as the body (the prologue is not stripped);
being a total function, extraction raises no error. -/
theorem malformed_frontmatter_keeps_whole_content
    (parseY : List Char → Except Unit (Option Fm)) (content y body : List Char)
    (hm : matchFrontmatter content = some (y, body))
    (he : parseY y = .error ()) :
    extract_frontmatter parseY content = ([], content) := by
  simp [extract_frontmatter, hm, he]

/-- Witness for C5 at a concrete malformed document. -/
theorem malformed_frontmatter_keeps_whole_content_witness :
    matchFrontmatter "---\na: [\n---\nbody".data = some ("a: [".data, "body".data) ∧
    extract_frontmatter (fun _ => .error ()) "---\na: [\n---\nbody".data =
      ([], "---\na: [\n---\nbody".data) :=
  ⟨by decide,
   malformed_frontmatter_keeps_whole_content (fun _ => .error ())
     "---\na: [\n---\nbody".data "a: [".data "body".data (by decide) rfl⟩

/-- C1: when every remote update and create fails, a sync step leaves the
whole state — in particular the document's stored record — exactly as it
was, and (for a document whose stored fingerprint does not match) the
retried step still issues remote calls on the next cycle. -/
theorem remote_failure_leaves_state_unchanged
    (h : List Char → List Char) (env : Env) (st : SyncState) (f : MdFile)
    (hu : ∀ p pr b, env.remote.updateR p pr b = false)
    (hc : ∀ d pr b, env.remote.createR d pr b = none) :
    (sync_file h env st f).1 = st ∧
    ((st f.path).map FileRec.hash ≠ some (h f.content) →
      (sync_file h env st f).2 ≠ []) := by
  constructor
  · simp only [sync_file]
    split
    · rfl
    · simp only [hu, hc, Bool.false_eq_true, if_false]
      repeat' split
      all_goals rfl
  · intro hch
    simp only [sync_file]
    split
    · rename_i hsk; exact absurd hsk hch
    · simp only [hu, hc, Bool.false_eq_true, if_false]
      repeat' split
      all_goals simp

/-- Witness for C1: a concrete changed document, a failing remote. -/
theorem remote_failure_leaves_state_unchanged_witness :
    (sync_file hash0 envFail0 stEmpty fileA).1 = stEmpty ∧
    (sync_file hash0 envFail0 stEmpty fileA).2 ≠ [] :=
  ⟨(remote_failure_leaves_state_unchanged hash0 envFail0 stEmpty fileA
      (fun _ _ _ => rfl) (fun _ _ _ => rfl)).1,
   (remote_failure_leaves_state_unchanged hash0 envFail0 stEmpty fileA
      (fun _ _ _ => rfl) (fun _ _ _ => rfl)).2 (by decide)⟩

/-- C9 (amended): whenever a sync step changes the stored entry for the
document's path, the new record consists of the file's modification time,
the content hash and a non-empty remote page id — the timestamp field is
the file's own mtime, not a clock reading. -/
theorem optTruthyGetD {o : Option (List Char)} (ho : optTruthy o = true) :
    o.getD [] ≠ [] := by
  cases o with
  | none => simp [optTruthy] at ho
  | some s => simp [optTruthy] at ho; simpa using ho

theorem upsert_record_fields
    (h : List Char → List Char) (env : Env) (st : SyncState) (f : MdFile)
    (hne : (sync_file h env st f).1 f.path ≠ st f.path) :
    ∃ pid, pid ≠ [] ∧
      (sync_file h env st f).1 f.path = some ⟨f.mtime, h f.content, pid⟩ := by
  revert hne
  simp only [sync_file]
  split
  · intro hne; exact absurd rfl hne
  · rcases hF : resolve_page_id env.remote env.db (Option.map FileRec.page_id (st f.path))
      (parse_file env.parseY env.iso f).1.name with ⟨pid1, fcalls⟩
    split
    · rename_i hp
      split
      · intro _
        exact ⟨_, optTruthyGetD hp, by simp [upsert]⟩
      · intro hne; exact absurd rfl hne
    · split
      · rename_i rid hcr
        split
        · rename_i hne0
          intro _
          exact ⟨rid, hne0, by simp [upsert]⟩
        · intro hne; exact absurd rfl hne
      · intro hne; exact absurd rfl hne

/-- Counterexample for C9 as stated: two documents identical in path and
content, differing only in file modification time, synced from the same
initial state over the same remote, get different stored timestamps (100
and 200) — the stored timestamp is the file's mtime, a property of the
file, not the time of the sync operation (the code never reads a clock:
it stores `current_mtime = file_path.stat().st_mtime`). -/
theorem sync_timestamp_is_file_mtime_cex :
    (sync_file hash0 env0 stEmpty fileA).1 fileA.path =
      some ⟨100, "hello".data, "pid1".data⟩ ∧
    (sync_file hash0 env0 stEmpty fileB).1 fileB.path =
      some ⟨200, "hello".data, "pid1".data⟩ ∧
    fileA.path = fileB.path ∧ fileA.content = fileB.content ∧
    fileA.mtime ≠ fileB.mtime := by
  refine ⟨?_, ?_, by decide, by decide, by decide⟩ <;> decide

/-- Witness for the amended C9 at a concrete upserting step. -/
theorem upsert_record_fields_witness :
    ∃ pid, pid ≠ [] ∧
      (sync_file hash0 env0 stEmpty fileA).1 fileA.path =
        some ⟨fileA.mtime, hash0 fileA.content, pid⟩ :=
  upsert_record_fields hash0 env0 stEmpty fileA (by decide)

/-- A stored state holding a record for fileA's path with a stale hash and
a known page id. -/
def stA : SyncState :=
  fun q => if q = "a.md".data then some ⟨0, "old".data, "pidA".data⟩ else none

/-- C3: (a) a changed document whose stored record carries a non-empty
page id issues exactly one remote call — an update of that page — and in
particular no title lookup; (b) a changed document with no stored record
whose title query finds nothing issues a create, and on success the
returned page id is adopted into the stored record. -/
theorem create_update_decision
    (h : List Char → List Char) (env : Env) (st : SyncState) (f : MdFile) :
    (∀ r : FileRec, st f.path = some r → r.hash ≠ h f.content → r.page_id ≠ [] →
      (sync_file h env st f).2 =
        [RemoteCall.update r.page_id (parse_file env.parseY env.iso f).1
          (parse_file env.parseY env.iso f).2]) ∧
    (st f.path = none →
      env.remote.findR env.db (parse_file env.parseY env.iso f).1.name = none →
      ∀ cid, env.remote.createR env.db (parse_file env.parseY env.iso f).1
          (parse_file env.parseY env.iso f).2 = some cid → cid ≠ [] →
      (sync_file h env st f).1 f.path = some ⟨f.mtime, h f.content, cid⟩ ∧
      RemoteCall.create env.db (parse_file env.parseY env.iso f).1
          (parse_file env.parseY env.iso f).2 ∈ (sync_file h env st f).2) := by
  constructor
  · intro r hst hch hpid
    simp only [sync_file]
    rw [hst, if_neg (by simp [hch])]
    have hres : resolve_page_id env.remote env.db
        (Option.map FileRec.page_id (some r)) (parse_file env.parseY env.iso f).1.name =
        (some r.page_id, []) := by
      simp [resolve_page_id, optTruthy, hpid]
    rw [hres, dif_pos (by simp [optTruthy, hpid])]
    split <;> simp
  · intro hst hfind cid hcr hcid
    simp only [sync_file]
    rw [hst, if_neg (by simp)]
    by_cases ht : (parse_file env.parseY env.iso f).1.name = []
    · have hres : resolve_page_id env.remote env.db
          (Option.map FileRec.page_id (none : Option FileRec))
          (parse_file env.parseY env.iso f).1.name = (none, []) := by
        simp [resolve_page_id, optTruthy, ht]
      rw [hres, dif_neg (by simp [optTruthy]), hcr]
      simp [hcid, upsert]
    · have hres : resolve_page_id env.remote env.db
          (Option.map FileRec.page_id (none : Option FileRec))
          (parse_file env.parseY env.iso f).1.name =
          (none, [RemoteCall.find env.db (parse_file env.parseY env.iso f).1.name]) := by
        simp [resolve_page_id, optTruthy, ht, hfind]
      rw [hres, dif_neg (by simp [optTruthy]), hcr]
      simp [hcid, upsert]

/-- Witness for C3: part (a) at a stored record with page id "pidA", part
(b) at the empty state with the created id "pid1". -/
theorem create_update_decision_witness :
    (sync_file hash0 env0 stA fileA).2 =
      [RemoteCall.update "pidA".data (parse_file env0.parseY env0.iso fileA).1
        (parse_file env0.parseY env0.iso fileA).2] ∧
    ((sync_file hash0 env0 stEmpty fileA).1 fileA.path =
        some ⟨fileA.mtime, hash0 fileA.content, "pid1".data⟩ ∧
      RemoteCall.create env0.db (parse_file env0.parseY env0.iso fileA).1
        (parse_file env0.parseY env0.iso fileA).2 ∈ (sync_file hash0 env0 stEmpty fileA).2) :=
  ⟨(create_update_decision hash0 env0 stA fileA).1 ⟨0, "old".data, "pidA".data⟩
      (by decide) (by decide) (by decide),
   (create_update_decision hash0 env0 stEmpty fileA).2 rfl rfl "pid1".data rfl (by decide)⟩

/-- A sync step never touches the state entry of any other path. -/
theorem sync_file_other (h : List Char → List Char) (env : Env) (st : SyncState)
    (f : MdFile) (q : List Char) (hq : q ≠ f.path) :
    (sync_file h env st f).1 q = st q := by
  simp only [sync_file]
  split
  · rfl
  · rcases hF : resolve_page_id env.remote env.db (Option.map FileRec.page_id (st f.path))
      (parse_file env.parseY env.iso f).1.name with ⟨pid1, fcalls⟩
    split
    · split
      · simp [upsert, hq]
      · rfl
    · split
      · split
        · simp [upsert, hq]
        · rfl
      · rfl

/-- Over a remote whose mutating calls succeed, a sync step always leaves
a record for the document's path whose hash is the current content
hash. -/
theorem sync_file_ok (h : List Char → List Char) (env : Env) (st : SyncState)
    (f : MdFile) (hok : RemoteOk env.remote) :
    ∃ r, (sync_file h env st f).1 f.path = some r ∧ r.hash = h f.content := by
  simp only [sync_file]
  split
  · rename_i hsk
    cases hst : st f.path with
    | none => rw [hst] at hsk; simp at hsk
    | some r0 =>
      rw [hst] at hsk
      simp at hsk
      exact ⟨r0, hst, hsk⟩
  · rcases hF : resolve_page_id env.remote env.db (Option.map FileRec.page_id (st f.path))
      (parse_file env.parseY env.iso f).1.name with ⟨pid1, fcalls⟩
    split
    · rw [if_pos (hok.1 _ _ _)]
      refine ⟨⟨f.mtime, h f.content, pid1.getD []⟩, ?_, rfl⟩
      simp [upsert]
    · obtain ⟨i, hcr, hi⟩ := hok.2 env.db (parse_file env.parseY env.iso f).1
        (parse_file env.parseY env.iso f).2
      rw [hcr]
      refine ⟨⟨f.mtime, h f.content, i⟩, ?_, rfl⟩
      simp [hi, upsert]

/-- A cycle never touches the state entry of a path none of its documents
has. -/
theorem sync_run_other (h : List Char → List Char) (env : Env) (files : List MdFile)
    (st : SyncState) (q : List Char) (hq : q ∉ files.map MdFile.path) :
    (sync_run h env files st).1 q = st q := by
  induction files generalizing st with
  | nil => rfl
  | cons g rest ih =>
    rw [List.map_cons] at hq
    have hq1 : q ≠ g.path := fun he => hq (by simp [he])
    have hq2 : q ∉ rest.map MdFile.path := fun he => hq (by simp [he])
    simp only [sync_run]
    rw [ih _ hq2, sync_file_other h env st g q hq1]

/-- After a cycle over a succeeding remote with duplicate-free paths,
every document's stored record carries its current content hash. -/
theorem sync_run_all (h : List Char → List Char) (env : Env) (files : List MdFile)
    (st : SyncState) (hok : RemoteOk env.remote)
    (hnd : (files.map MdFile.path).Nodup) :
    ∀ f ∈ files, ∃ r, (sync_run h env files st).1 f.path = some r ∧
      r.hash = h f.content := by
  induction files generalizing st with
  | nil => intro f hf; simp at hf
  | cons g rest ih =>
    intro f hf
    simp only [List.map_cons, List.nodup_cons] at hnd
    rcases List.mem_cons.mp hf with hf | hf
    · subst hf
      obtain ⟨r, hr, hh⟩ := sync_file_ok h env st f hok
      refine ⟨r, ?_, hh⟩
      simp only [sync_run]
      rw [sync_run_other h env rest _ f.path hnd.1, hr]
    · exact ih _ hnd.2 f hf

/-- A document whose stored hash matches is skipped with no remote call
and no state change. -/
theorem sync_file_skip (h : List Char → List Char) (env : Env) (st : SyncState)
    (f : MdFile) (hsk : (st f.path).map FileRec.hash = some (h f.content)) :
    sync_file h env st f = (st, []) := by
  simp only [sync_file]
  rw [if_pos hsk]

/-- A cycle in which every document's stored hash matches performs no
remote call and no state mutation at all. -/
theorem sync_run_skips (h : List Char → List Char) (env : Env) (files : List MdFile)
    (st : SyncState)
    (hall : ∀ f ∈ files, (st f.path).map FileRec.hash = some (h f.content)) :
    sync_run h env files st = (st, []) := by
  induction files with
  | nil => rfl
  | cons g rest ih =>
    have h1 : sync_file h env st g = (st, []) := sync_file_skip h env st g (hall g (by simp))
    simp only [sync_run, h1]
    rw [ih (fun f hf => hall f (by simp [hf]))]
    rfl

/-- C2: after a first cycle over a remote whose calls succeed (paths
duplicate-free), a second cycle over the unchanged files — whatever the
remote now does — issues zero remote calls and leaves the state
untouched. -/
theorem sync_idempotent (h : List Char → List Char) (env env2 : Env)
    (files : List MdFile) (st0 : SyncState)
    (hnd : (files.map MdFile.path).Nodup) (hok : RemoteOk env.remote) :
    sync_run h env2 files (sync_run h env files st0).1 =
      ((sync_run h env files st0).1, []) := by
  apply sync_run_skips
  intro f hf
  obtain ⟨r, hr, hh⟩ := sync_run_all h env files st0 hok hnd f hf
  rw [hr]
  simp [hh]

/-- Witness for C2 at a concrete one-file vault. -/
theorem sync_idempotent_witness :
    sync_run hash0 env0 [fileA] (sync_run hash0 env0 [fileA] stEmpty).1 =
      ((sync_run hash0 env0 [fileA] stEmpty).1, []) :=
  sync_idempotent hash0 env0 env0 [fileA] stEmpty (by simp)
    ⟨fun _ _ _ => rfl, fun _ _ _ => ⟨"pid1".data, rfl, by decide⟩⟩

/-- A concrete stand-in for `datetime.fromtimestamp(...).isoformat()`. -/
def iso0 : Int → List Char := fun _ => "1970-01-01T00:00:00".data

/-- A frontmatter carrying both keys, with a present-but-empty `date`. -/
def fmBoth : Fm :=
  [("date".data, .vStr []), ("created".data, .vStr "2020-01-01".data)]

/-- Counterexample for C4 as stated: a frontmatter that contains both a
`date` key and a `created` key, whose `date` value is the empty string —
the resolved Date equals the `created` value, not the `date` value,
because the source selects with Python truthiness
(`frontmatter.get('date') or frontmatter.get('created')`), not key
presence. -/
theorem date_priority_cex :
    fmGet fmBoth "date".data = some (.vStr []) ∧
    fmGet fmBoth "created".data = some (.vStr "2020-01-01".data) ∧
    (build_properties iso0 "t".data fmBoth 0).date = some "2020-01-01".data ∧
    some (pyStr (.vStr [])) ≠ some "2020-01-01".data :=
  ⟨rfl, rfl, rfl, by decide⟩

/-- C4 (amended): the Date source priority is the first TRUTHY value
among frontmatter `date`, frontmatter `created` and the file modification
time rendered as an ISO string; a present-but-falsy (empty/null) value
falls through.  The selected value is stringified. -/
theorem date_priority (iso : Int → List Char) (title : List Char) (fm : Fm) (mtime : Int) :
    (∀ d, fmGet fm "date".data = some d → pyTruthy d = true →
      (build_properties iso title fm mtime).date = some (pyStr d)) ∧
    ((fmGet fm "date".data = none ∨
        ∃ d, fmGet fm "date".data = some d ∧ pyTruthy d = false) →
      ∀ c, fmGet fm "created".data = some c → pyTruthy c = true →
      (build_properties iso title fm mtime).date = some (pyStr c)) ∧
    ((fmGet fm "date".data = none ∨
        ∃ d, fmGet fm "date".data = some d ∧ pyTruthy d = false) →
      (fmGet fm "created".data = none ∨
        ∃ c, fmGet fm "created".data = some c ∧ pyTruthy c = false) →
      iso mtime ≠ [] →
      (build_properties iso title fm mtime).date = some (iso mtime)) := by
  refine ⟨?_, ?_, ?_⟩
  · intro d hd ht
    simp [build_properties, pyOr, hd, ht]
  · rintro (hd | ⟨d, hd, hdf⟩) c hc ht
    · simp [build_properties, pyOr, hd, hc, ht]
    · simp [build_properties, pyOr, hd, hdf, hc, ht]
  · rintro (hd | ⟨d, hd, hdf⟩) (hc | ⟨c, hc, hcf⟩) hiso
    · simp only [build_properties, pyOr, hd, hc]
      simp [pyTruthy, pyStr, hiso]
    · simp only [build_properties, pyOr, hd, hc, hcf, Bool.false_eq_true, if_false]
      simp [pyTruthy, pyStr, hiso]
    · simp only [build_properties, pyOr, hd, hdf, hc, Bool.false_eq_true, if_false]
      simp [pyTruthy, pyStr, hiso]
    · simp only [build_properties, pyOr, hd, hdf, hc, hcf, Bool.false_eq_true, if_false]
      simp [pyTruthy, pyStr, hiso]

/-- A frontmatter with only a truthy `date`. -/
def fmD : Fm := [("date".data, .vStr "2021-05-05".data)]

/-- A frontmatter with only a truthy `created`. -/
def fmC : Fm := [("created".data, .vStr "2019-01-01".data)]

/-- Witness for the amended C4 on all three priority levels. -/
theorem date_priority_witness :
    (build_properties iso0 "t".data fmD 0).date = some (pyStr (.vStr "2021-05-05".data)) ∧
    (build_properties iso0 "t".data fmC 0).date = some (pyStr (.vStr "2019-01-01".data)) ∧
    (build_properties iso0 "t".data [] 0).date = some (iso0 0) :=
  ⟨(date_priority iso0 "t".data fmD 0).1 _ rfl rfl,
   (date_priority iso0 "t".data fmC 0).2.1 (Or.inl rfl) _ rfl rfl,
   (date_priority iso0 "t".data [] 0).2.2 (Or.inl rfl) (Or.inl rfl) (by decide)⟩

/-!
Helper lemmas about stripping and line classification, used by the
converter claims.
-/

theorem dropTrailingWs_cons (d : Char) (l : List Char) (hd : isPySpace d = false) :
    ∃ t, dropTrailingWs (d :: l) = d :: t := by
  rw [dropTrailingWs]
  cases hr : dropTrailingWs l with
  | nil => exact ⟨[], by simp [hd]⟩
  | cons x xs => exact ⟨x :: xs, by simp⟩

theorem pyStrip_head {c : Char} (cs : List Char) (hc : isPySpace c = false) :
    ∃ t, pyStrip (c :: cs) = c :: t := by
  unfold pyStrip
  rw [List.dropWhile_cons, if_neg (by simp [hc])]
  exact dropTrailingWs_cons c cs hc

/-- The first character of a non-empty stripped line is the line's first
non-whitespace character: if the line starts with a non-whitespace
character at all, that character is the head of the strip. -/
theorem pyStrip_cons_head {d c : Char} {l2 t : List Char}
    (hs : pyStrip (d :: l2) = c :: t) (hd : isPySpace d = false) : c = d := by
  obtain ⟨t2, h2⟩ := pyStrip_head (c := d) l2 hd
  rw [h2] at hs
  exact (List.cons.injEq .. ▸ hs).1.symm

theorem take_two_eq {l : List Char} {a b : Char} (h : l.take 2 = [a, b]) :
    ∃ t, l = a :: b :: t := by
  cases l with
  | nil => simp at h
  | cons x l2 =>
    cases l2 with
    | nil => simp at h
    | cons y l3 =>
      simp [List.take_succ_cons] at h
      exact ⟨l3, by simp [h.1, h.2]⟩

theorem take_three_eq {l : List Char} {a b c : Char} (h : l.take 3 = [a, b, c]) :
    ∃ t, l = a :: b :: c :: t := by
  cases l with
  | nil => simp at h
  | cons x l2 =>
    cases l2 with
    | nil => simp at h
    | cons y l3 =>
      cases l3 with
      | nil => simp at h
      | cons z l4 =>
        simp [List.take_succ_cons] at h
        exact ⟨l4, by simp [h.1, h.2.1, h.2.2]⟩

/-- If the stripped line does not start with `'#'`, the raw line matches
no heading test: each test forces the line to start with `'#'`, which
would make `'#'` its first non-whitespace character. -/
theorem no_heading_prefix {line t : List Char} {c : Char}
    (hs : pyStrip line = c :: t) (hne : c ≠ '#') :
    line.take 2 ≠ "# ".data ∧ line.take 3 ≠ "## ".data ∧
      line.take 4 ≠ "### ".data := by
  refine ⟨fun h => ?_, fun h => ?_, fun h => ?_⟩
  · obtain ⟨l2, rfl⟩ := take_two_eq (show line.take 2 = ['#', ' '] from h)
    exact hne (pyStrip_cons_head hs (by decide))
  · obtain ⟨l2, rfl⟩ := take_three_eq (show line.take 3 = ['#', '#', ' '] from h)
    exact hne (pyStrip_cons_head hs (by decide))
  · have h4 : line.take 4 = ['#', '#', '#', ' '] := h
    have h2 : line.take 2 = ['#', '#'] := by
      have := congrArg (List.take 2) h4
      simpa [List.take_take] using this
    obtain ⟨l2, rfl⟩ := take_two_eq h2
    exact hne (pyStrip_cons_head hs (by decide))

theorem numberedMatch_cons_none {c : Char} (t : List Char) (hc : c.isDigit = false) :
    numberedMatch (c :: t) = none := by
  simp [numberedMatch, List.takeWhile_cons, hc]

theorem is_image_line_not_bang {line t : List Char} {c : Char}
    (hs : pyStrip line = c :: t) (hc : c ≠ '!') : is_image_line line = false := by
  simp only [is_image_line, hs]
  rw [show mdImageMatchAt (c :: t) = none from ?_, show obsImageMatchAt (c :: t) = none from ?_]
  · rfl
  · unfold obsImageMatchAt
    rw [if_neg]
    intro h
    obtain ⟨l2, he⟩ := take_three_eq (show (c :: t).take 3 = ['!', '[', '['] from h)
    exact hc (List.cons.injEq .. ▸ he).1
  · unfold mdImageMatchAt
    rw [if_neg]
    intro h
    obtain ⟨l2, he⟩ := take_two_eq (show (c :: t).take 2 = ['!', '['] from h)
    exact hc (List.cons.injEq .. ▸ he).1

/-- If the stripped line starts with a character that triggers none of the
non-paragraph tests, the scanning step emits a paragraph carrying the raw
line. -/
theorem classifyLine_eq_paragraph (line : List Char) (c : Char) (t : List Char)
    (hs : pyStrip line = c :: t)
    (h1 : line.take 2 ≠ "# ".data) (h2 : line.take 3 ≠ "## ".data)
    (h3 : line.take 4 ≠ "### ".data)
    (hc1 : c ≠ '-') (hc2 : c ≠ '*') (hc3 : c.isDigit = false) (hc4 : c ≠ '>')
    (hc5 : c ≠ '!') :
    classifyLine line = mkParagraph line := by
  simp only [classifyLine, hs]
  rw [if_neg h1, if_neg h2, if_neg h3]
  rw [if_neg (show ¬((c :: t).take 2 = "- ".data ∨ (c :: t).take 2 = "* ".data) by
    rintro (h | h)
    · obtain ⟨t2, he⟩ := take_two_eq (show (c :: t).take 2 = ['-', ' '] from h)
      injection he with hh
      exact hc1 hh
    · obtain ⟨t2, he⟩ := take_two_eq (show (c :: t).take 2 = ['*', ' '] from h)
      injection he with hh
      exact hc2 hh)]
  rw [numberedMatch_cons_none t hc3]
  rw [if_neg (show ¬((c :: t).take 2 = "> ".data) by
    intro h
    obtain ⟨t2, he⟩ := take_two_eq (show (c :: t).take 2 = ['>', ' '] from h)
    injection he with hh
    exact hc4 hh)]
  rw [if_neg (by simp [is_image_line_not_bang hs hc5])]

/-- One scanning step on a non-blank, non-fence line: the step emits
exactly the block `classifyLine` assigns to it and continues with the
remaining lines. -/
theorem parseLines_cons_classify (line : List Char) (ls : List (List Char))
    (hnb : pyStrip line ≠ []) (hnf : (pyStrip line).take 3 ≠ "```".data) :
    parseLines (line :: ls) = classifyLine line :: parseLines ls := by
  simp only [parseLines, List.length_cons, parseLinesF]
  rw [if_neg hnb, if_neg hnf]

theorem create_image_block_shape {line : List Char} {b : Block}
    (h : create_image_block line = some b) : ∃ u, b = .image u := by
  unfold create_image_block at h
  split at h
  · split at h
    · simp at h
      exact ⟨_, h.symm⟩
    · simp at h
  · simp at h

/-- C10: a body line of four or more `'#'` followed by a space is emitted
as a paragraph carrying the raw line (rendered like every paragraph), not
as a heading; and heading blocks arise only from the exact raw-line
prefixes `"# "`, `"## "`, `"### "` with the matching level 1, 2 or 3. -/
theorem four_hashes_paragraph :
    (∀ (n : Nat) (t : List Char) (ls : List (List Char)), 4 ≤ n →
      parseLines ((List.replicate n '#' ++ ' ' :: t) :: ls) =
        mkParagraph (List.replicate n '#' ++ ' ' :: t) :: parseLines ls) ∧
    (∀ (line : List Char) (lvl : Nat) (r : List (List Char)),
      classifyLine line = Block.heading lvl r →
      (lvl = 1 ∧ line.take 2 = "# ".data) ∨ (lvl = 2 ∧ line.take 3 = "## ".data) ∨
        (lvl = 3 ∧ line.take 4 = "### ".data)) := by
  constructor
  · intro n t ls hn
    obtain ⟨m, rfl⟩ : ∃ m, n = 4 + m := ⟨n - 4, by omega⟩
    have hline : List.replicate (4 + m) '#' ++ ' ' :: t =
        '#' :: '#' :: '#' :: '#' :: (List.replicate m '#' ++ ' ' :: t) := by
      rw [List.replicate_add]
      rfl
    rw [hline]
    obtain ⟨t1, hs⟩ := pyStrip_head (c := '#')
      ('#' :: '#' :: '#' :: (List.replicate m '#' ++ ' ' :: t)) (by decide)
    rw [parseLines_cons_classify _ ls (by rw [hs]; simp)
      (by
        rw [hs]
        intro hcon
        rw [show "```".data = ['`', '`', '`'] from rfl, List.take_succ_cons] at hcon
        injection hcon with hh
        exact absurd hh (by decide))]
    rw [classifyLine_eq_paragraph _ '#' t1 hs
      (by
        rw [show ('#' :: '#' :: '#' :: '#' :: (List.replicate m '#' ++ ' ' :: t)).take 2 =
          ['#', '#'] from rfl]
        decide)
      (by
        rw [show ('#' :: '#' :: '#' :: '#' :: (List.replicate m '#' ++ ' ' :: t)).take 3 =
          ['#', '#', '#'] from rfl]
        decide)
      (by
        rw [show ('#' :: '#' :: '#' :: '#' :: (List.replicate m '#' ++ ' ' :: t)).take 4 =
          ['#', '#', '#', '#'] from rfl]
        decide)
      (by decide) (by decide) (by decide) (by decide) (by decide)]
  · intro line lvl r hcl
    simp only [classifyLine] at hcl
    split at hcl
    · rename_i hcond
      left
      simp only [mkHeading, Block.heading.injEq] at hcl
      exact ⟨hcl.1.symm, hcond⟩
    · split at hcl
      · rename_i hcond
        right; left
        simp only [mkHeading, Block.heading.injEq] at hcl
        exact ⟨hcl.1.symm, hcond⟩
      · split at hcl
        · rename_i hcond
          right; right
          simp only [mkHeading, Block.heading.injEq] at hcl
          exact ⟨hcl.1.symm, hcond⟩
        · split at hcl
          · split at hcl
            · simp [mkTodo] at hcl
            · split at hcl
              · simp [mkTodo] at hcl
              · simp [mkBulleted] at hcl
          · split at hcl
            · simp [mkNumbered] at hcl
            · split at hcl
              · simp [mkQuote] at hcl
              · split at hcl
                · split at hcl
                  · rename_i b heq
                    obtain ⟨u, rfl⟩ := create_image_block_shape heq
                    simp at hcl
                  · simp [mkParagraph] at hcl
                · simp [mkParagraph] at hcl

/-- Witness for C10: `"#### Title"` becomes a paragraph; `"## A"` is a
heading produced by (and only by) its exact prefix. -/
theorem four_hashes_paragraph_witness :
    parseLines [(List.replicate 4 '#' ++ ' ' :: "Title".data)] =
      mkParagraph (List.replicate 4 '#' ++ ' ' :: "Title".data) :: parseLines [] ∧
    ((2 = 1 ∧ "## A".data.take 2 = "# ".data) ∨ (2 = 2 ∧ "## A".data.take 3 = "## ".data) ∨
      (2 = 3 ∧ "## A".data.take 4 = "### ".data)) :=
  ⟨four_hashes_paragraph.1 4 "Title".data [] (by omega),
   four_hashes_paragraph.2 "## A".data 2 (create_rich_text "A".data) (by decide)⟩

theorem is_image_line_shape {line : List Char} (h : is_image_line line = true) :
    ∃ t, pyStrip line = '!' :: '[' :: t := by
  unfold is_image_line at h
  rw [Bool.or_eq_true] at h
  rcases h with h | h
  · rw [Option.isSome_iff_exists] at h
    obtain ⟨p, hp⟩ := h
    unfold mdImageMatchAt at hp
    split at hp
    · rename_i hcond
      exact take_two_eq (show (pyStrip line).take 2 = ['!', '['] from hcond)
    · simp at hp
  · rw [Option.isSome_iff_exists] at h
    obtain ⟨g, hg⟩ := h
    unfold obsImageMatchAt at hg
    split at hg
    · rename_i hcond
      obtain ⟨t, ht⟩ := take_three_eq (show (pyStrip line).take 3 = ['!', '[', '['] from hcond)
      exact ⟨'[' :: t, ht⟩
    · simp at hg

/-- C6 (amended): a line whose STRIPPED form merely begins with
bracket-embed or markdown-image syntax is recognized as an image line —
`re.match` anchors only at the start, so trailing text does not prevent
recognition — and the scanning step then emits the resolver's block if it
returns one, else a paragraph carrying the raw line. -/
theorem image_line_dispatch (line : List Char) (ls : List (List Char))
    (h : is_image_line line = true) :
    parseLines (line :: ls) =
      (match create_image_block line with
        | some b => b
        | none => mkParagraph line) :: parseLines ls := by
  obtain ⟨t, hs⟩ := is_image_line_shape h
  obtain ⟨hh1, hh2, hh3⟩ := no_heading_prefix hs (by decide)
  rw [parseLines_cons_classify line ls (by rw [hs]; simp)
    (by
      rw [hs]
      intro hcon
      rw [show "```".data = ['`', '`', '`'] from rfl, List.take_succ_cons] at hcon
      injection hcon with hh
      exact absurd hh (by decide))]
  congr 1
  simp only [classifyLine, hs]
  rw [if_neg hh1, if_neg hh2, if_neg hh3]
  rw [if_neg (show ¬(('!' :: '[' :: t).take 2 = "- ".data ∨
      ('!' :: '[' :: t).take 2 = "* ".data) by
    rintro (hcon | hcon) <;>
      (rw [show ('!' :: '[' :: t).take 2 = ['!', '['] from rfl] at hcon;
       exact absurd hcon (by decide)))]
  rw [numberedMatch_cons_none _ (by decide)]
  rw [if_neg (show ¬(('!' :: '[' :: t).take 2 = "> ".data) by
    intro hcon
    rw [show ('!' :: '[' :: t).take 2 = ['!', '['] from rfl] at hcon
    exact absurd hcon (by decide))]
  rw [if_pos h]

/-- Counterexample for C6 as stated: the line `"![a](http://x) tail"`
begins with markdown-image syntax but carries trailing text; the claim
says it is not recognized as an image line and becomes a paragraph, yet
the converter recognizes it (`re.match` is prefix-anchored) and emits an
image block, dropping the trailing text. -/
theorem image_line_trailing_text_cex :
    is_image_line "![a](http://x) tail".data = true ∧
    parseLines ["![a](http://x) tail".data] = [Block.image "http://x".data] ∧
    parseLines ["![a](http://x) tail".data] ≠ [mkParagraph "![a](http://x) tail".data] := by
  refine ⟨by decide, by decide, by decide⟩

/-- Witness for the amended C6 at an embed-only image line (the resolver
returns none, so the paragraph fallback carries the raw line). -/
theorem image_line_dispatch_witness :
    parseLines ["![[e.png]]".data] =
      (match create_image_block "![[e.png]]".data with
        | some b => b
        | none => mkParagraph "![[e.png]]".data) :: parseLines [] :=
  image_line_dispatch "![[e.png]]".data [] (by decide)

/-- Modelled from the spec: a target that is an "absolute network
address", i.e. begins with an explicit network scheme `http://` or
`https://`.  Used only to state what the original claim asserts; the code
itself tests `url.startswith('http')`. -/
def isAbsNetAddr (u : List Char) : Bool :=
  u.take 7 = "http://".data || u.take 8 = "https://".data

/-- Counterexample for C7 as stated: `"![a](httpx.png)"` contains a
standard markdown image reference whose target `httpx.png` is NOT an
absolute network address (it is a relative file name), yet the resolver
promotes it to an image block, because the code only tests
`url.startswith('http')`. -/
theorem image_promotion_cex :
    is_image_line "![a](httpx.png)".data = true ∧
    create_image_block "![a](httpx.png)".data = some (Block.image "httpx.png".data) ∧
    isAbsNetAddr "httpx.png".data = false := by
  refine ⟨by decide, by decide, by decide⟩

/-- C7 (amended): for a recognized image line, an image block carrying
exactly the referenced URL is produced iff the markdown-image search finds
a reference whose target begins with `"http"`; otherwise (embed-only
reference, or a target without the `http` prefix) the line falls back to a
paragraph carrying the raw line. -/
theorem image_promotion (line : List Char) (ls : List (List Char))
    (h : is_image_line line = true) :
    (∀ a u, mdImageSearch line = some (a, u) → u.take 4 = "http".data →
      parseLines (line :: ls) = Block.image u :: parseLines ls) ∧
    ((∀ a u, mdImageSearch line = some (a, u) → u.take 4 ≠ "http".data) →
      parseLines (line :: ls) = mkParagraph line :: parseLines ls) := by
  constructor
  · intro a u hms hhttp
    rw [image_line_dispatch line ls h]
    unfold create_image_block
    simp only [hms]
    rw [if_pos hhttp]
  · intro hnone
    rw [image_line_dispatch line ls h]
    cases hms : mdImageSearch line with
    | none => simp [create_image_block, hms]
    | some p =>
      have hne := hnone p.1 p.2 (by rw [hms])
      simp [create_image_block, hms, hne]

/-- Witness for the amended C7: the spec's own two examples — an absolute
https target is promoted to an image block with that exact URL, a local
relative target falls back to a paragraph. -/
theorem image_promotion_witness :
    parseLines ["![a](https://x/y.png)".data] =
      Block.image "https://x/y.png".data :: parseLines [] ∧
    parseLines ["![a](./y.png)".data] =
      mkParagraph "![a](./y.png)".data :: parseLines [] :=
  ⟨(image_promotion "![a](https://x/y.png)".data [] (by decide)).1
      "a".data "https://x/y.png".data (by decide) (by decide),
   (image_promotion "![a](./y.png)".data [] (by decide)).2
      (by
        intro a u hms
        rw [show mdImageSearch "![a](./y.png)".data =
          some ("a".data, "./y.png".data) from by decide] at hms
        injection hms with hm
        rw [Prod.mk.injEq] at hm
        rw [← hm.2]
        decide)⟩

theorem create_rich_text_le (text : List Char) :
    ∀ s ∈ create_rich_text text, s.length ≤ 2000 := by
  intro s hsm
  simp only [create_rich_text, List.mem_singleton] at hsm
  subst hsm
  split
  · rename_i hlong
    rw [List.length_append, List.length_take, show ("...".data).length = 3 from rfl]
    omega
  · rename_i hshort
    omega

theorem create_code_block_texts_le (code language : List Char) :
    ∀ s ∈ blockTexts (create_code_block code language), s.length ≤ 2000 := by
  intro s hsm
  simp only [create_code_block, blockTexts, List.mem_singleton] at hsm
  subst hsm
  split
  · rename_i hlong
    rw [List.length_append, List.length_take, show ("...".data).length = 3 from rfl]
    omega
  · rename_i hshort
    omega

theorem classifyLine_texts_le (line : List Char) :
    ∀ s ∈ blockTexts (classifyLine line), s.length ≤ 2000 := by
  intro s
  simp only [classifyLine]
  repeat' split
  all_goals
    first
    | exact fun hsm => create_rich_text_le _ s hsm
    | (rename_i b heq
       obtain ⟨u, rfl⟩ := create_image_block_shape heq
       intro hsm
       simp [blockTexts] at hsm)

theorem parseLinesF_texts_le :
    ∀ (fuel : Nat) (ls : List (List Char)) (b : Block) (s : List Char),
      b ∈ parseLinesF fuel ls → s ∈ blockTexts b → s.length ≤ 2000 := by
  intro fuel
  induction fuel with
  | zero =>
    intro ls b s hb
    cases ls <;> simp [parseLinesF] at hb
  | succ n ih =>
    intro ls b s hb hsm
    cases ls with
    | nil => simp [parseLinesF] at hb
    | cons line rest =>
      simp only [parseLinesF] at hb
      split at hb
      · exact ih rest b s hb hsm
      · split at hb
        · rcases List.mem_cons.mp hb with hb | hb
          · subst hb
            exact create_code_block_texts_le _ _ s hsm
          · exact ih _ b s hb hsm
        · rcases List.mem_cons.mp hb with hb | hb
          · subst hb
            exact classifyLine_texts_le line s hsm
          · exact ih rest b s hb hsm

/-- C8: every block the converter emits carries only text contents of at
most 2000 characters, and any rendered rich text longer than 2000
characters is truncated to its first 1997 characters plus `"..."` (the
code-block truncation is `create_code_block_texts_le`). -/
theorem blocks_text_le :
    (∀ (body : List Char) (b : Block) (s : List Char),
      b ∈ parse_body_to_blocks body → s ∈ blockTexts b → s.length ≤ 2000) ∧
    (∀ text : List Char, 2000 < (wikiSub (obsSub text)).length →
      create_rich_text text = [(wikiSub (obsSub text)).take 1997 ++ "...".data]) := by
  constructor
  · intro body b s hb hsm
    exact parseLinesF_texts_le _ _ b s hb hsm
  · intro text hlong
    simp only [create_rich_text]
    rw [if_pos hlong]

/-- A body text longer than the remote field ceiling. -/
def longText : List Char := List.replicate 2001 'a'

theorem obsSubF_replicate_a (fuel : Nat) :
    ∀ n, obsSubF fuel (List.replicate n 'a') = List.replicate n 'a' := by
  induction fuel with
  | zero => intro n; cases n <;> rfl
  | succ m ih =>
    intro n
    cases n with
    | zero => rfl
    | succ k =>
      rw [List.replicate_succ]
      show obsSubF (m + 1) ('a' :: List.replicate k 'a') = _
      simp only [obsSubF]
      rw [if_neg ?hc, ih k]
      case hc =>
        intro hcon
        rw [List.take_succ_cons] at hcon
        injection hcon with hh
        exact absurd hh (by decide)

theorem wikiSubF_replicate_a (fuel : Nat) :
    ∀ n, wikiSubF fuel (List.replicate n 'a') = List.replicate n 'a' := by
  induction fuel with
  | zero => intro n; cases n <;> rfl
  | succ m ih =>
    intro n
    cases n with
    | zero => rfl
    | succ k =>
      rw [List.replicate_succ]
      show wikiSubF (m + 1) ('a' :: List.replicate k 'a') = _
      simp only [wikiSubF]
      rw [if_neg ?hc, ih k]
      case hc =>
        intro hcon
        rw [List.take_succ_cons] at hcon
        injection hcon with hh
        exact absurd hh (by decide)

theorem longText_long : 2000 < (wikiSub (obsSub longText)).length := by
  have h1 : obsSub longText = longText := by
    simp only [obsSub, longText, List.length_replicate]
    exact obsSubF_replicate_a 2001 2001
  have h2 : wikiSub longText = longText := by
    simp only [wikiSub, longText, List.length_replicate]
    exact wikiSubF_replicate_a 2001 2001
  rw [h1, h2]
  simp only [longText, List.length_replicate]
  omega

/-- Witness for C8: a concrete emitted block within the bound, and a
concrete over-long text that is truncated. -/
theorem blocks_text_le_witness :
    (mkParagraph "hi".data ∈ parse_body_to_blocks "hi".data ∧
      "hi".data ∈ blockTexts (mkParagraph "hi".data) ∧ "hi".data.length ≤ 2000) ∧
    create_rich_text longText = [(wikiSub (obsSub longText)).take 1997 ++ "...".data] :=
  ⟨⟨by decide, by decide,
    blocks_text_le.1 "hi".data (mkParagraph "hi".data) "hi".data (by decide) (by decide)⟩,
   blocks_text_le.2 longText longText_long⟩

end O2N
